import Mathlib

/-!
Verification of the SmartStock forecasting core (`server/database.ts`).

The stock-forecasting engine is shallowly embedded here:

* JS numbers that stay integral (stock levels, forecast entries) become `ℤ`;
  JS numbers that are genuinely fractional (weekly demand means, variances)
  become `ℚ`; values produced through `Math.sin` / `Math.cos` / `Math.sqrt`
  live in `ℝ` with `Real.sin` / `Real.cos` / `Real.sqrt`.
* Calendar instants are modelled as integer day numbers; `now` is an explicit
  parameter standing for `new Date()`. Week windows are carried as integer
  day offsets relative to `now`.
* The textual fields of records (name, SKU, supplier, ISO date strings) play
  no role in any claim and are omitted; week windows keep their numeric
  start/end offsets instead of ISO strings.
* `MemStorage.generateStockStatus` reads `forecast[i]` for the fixed index
  range `i = 0..7`; we embed that loop as a map over `List.range 8`, reading
  the forecast list with `getD _ 0` (the function is only ever called with
  the 8-entry output of `generateForecast`).
-/

namespace SmartStock

/-- `InventoryItem` (shared/schema.ts), numeric fields only. -/
structure InventoryItem where
  id : ℤ
  currentStock : ℤ
  reorderPoint : ℤ
  safetyStock : ℤ
  unitCost : ℚ
  leadTimeDays : ℤ
  deriving DecidableEq, Repr

/-- `DemandHistory` record: one day's observed demand for an item. -/
structure DemandRecord where
  itemId : ℤ
  date : ℤ
  quantity : ℕ
  deriving DecidableEq, Repr

/-! ## Demand aggregation, `MemStorage` variant

`MemStorage.calculateWeeklyDemand` / `calculateDemandVariability` partition
the trailing 12 weeks before `now` into 7-day buckets
`[now - 7*off - 7, now - 7*off - 1]` for `off = 0..11`. -/

/-- Total demand falling in bucket `weekOffset` (`MemStorage` bucketing). -/
def memWeekTotal (now : ℤ) (demands : List DemandRecord) (weekOffset : ℕ) : ℕ :=
  let weekStart : ℤ := now - weekOffset * 7 - 7
  let weekEnd : ℤ := weekStart + 6
  ((demands.filter fun d => decide (weekStart ≤ d.date ∧ d.date ≤ weekEnd)).map
    DemandRecord.quantity).sum

/-- The 12 weekly bucket totals, newest bucket first (`weeklyTotals`). -/
def memWeeklyTotals (now : ℤ) (demands : List DemandRecord) : List ℕ :=
  (List.range 12).map (memWeekTotal now demands)

/-- `MemStorage.calculateWeeklyDemand`: mean of the 12 bucket totals. -/
def memCalculateWeeklyDemand (now : ℤ) (demands : List DemandRecord) : ℚ :=
  ((memWeeklyTotals now demands).sum : ℚ) / ((memWeeklyTotals now demands).length : ℚ)

/-- Population variance of a list of totals (shared by both storage variants):
mean of squared deviations from the mean. -/
def varianceOfTotals (totals : List ℕ) : ℚ :=
  let avg : ℚ := (totals.sum : ℚ) / (totals.length : ℚ)
  ((totals.map fun t => ((t : ℚ) - avg) ^ 2).sum) / (totals.length : ℚ)

/-- The variance computed inside `MemStorage.calculateDemandVariability`. -/
def memVariance (now : ℤ) (demands : List DemandRecord) : ℚ :=
  varianceOfTotals (memWeeklyTotals now demands)

/-- `MemStorage.calculateDemandVariability`: square root of the variance of
the 12 weekly bucket totals.  Note: no guard on the number of records. -/
noncomputable def memCalculateDemandVariability (now : ℤ) (demands : List DemandRecord) : ℝ :=
  Real.sqrt ((memVariance now demands : ℚ) : ℝ)

/-! ## Demand aggregation, `PostgreSQLStorage` variant

`PostgreSQLStorage.calculateWeeklyDemand` groups records by calendar week key
(`getWeekKey`: the date minus its day-of-week) and divides by the number of
**distinct** keys, not by 12. -/

/-- `getWeekKey`: start-of-week day of a date (day-of-week = `date % 7`). -/
def pgWeekKey (date : ℤ) : ℤ := date - date % 7

/-- Distinct week keys appearing in the history, in first-seen order. -/
def pgWeekKeys (demands : List DemandRecord) : List ℤ :=
  (demands.map fun d => pgWeekKey d.date).dedup

/-- Total quantity grouped under week key `k`. -/
def pgWeekTotal (demands : List DemandRecord) (k : ℤ) : ℕ :=
  ((demands.filter fun d => decide (pgWeekKey d.date = k)).map DemandRecord.quantity).sum

/-- The grouped per-week totals (the values of the `weeklyTotals` map). -/
def pgWeeklyTotalValues (demands : List DemandRecord) : List ℕ :=
  (pgWeekKeys demands).map (pgWeekTotal demands)

/-- `PostgreSQLStorage.calculateWeeklyDemand`: sum of grouped totals divided
by the number of distinct record-bearing weeks (0 for an empty history). -/
def pgCalculateWeeklyDemand (demands : List DemandRecord) : ℚ :=
  if demands.isEmpty then 0
  else if 0 < (pgWeeklyTotalValues demands).length then
    ((pgWeeklyTotalValues demands).sum : ℚ) / ((pgWeeklyTotalValues demands).length : ℚ)
  else 0

/-- `PostgreSQLStorage.calculateDemandVariability`: 0 when fewer than two
records exist, otherwise the population standard deviation of the grouped
weekly totals. -/
noncomputable def pgCalculateDemandVariability (demands : List DemandRecord) : ℝ :=
  if demands.length < 2 then 0
  else Real.sqrt ((varianceOfTotals (pgWeeklyTotalValues demands) : ℚ) : ℝ)

/-! ## Forecast generation (`MemStorage.generateForecast`) -/

/-- Body of `MemStorage.generateForecast` once the demand statistics are
computed: 8 entries, `max(0, floor(wd * (1 + sin(seed+i)*0.05)
+ cos(seed+i*2) * variability * 0.3))` with `seed = id * 123`. -/
noncomputable def memGenerateForecastCore (id : ℤ) (weeklyDemand variability : ℝ) : List ℤ :=
  (List.range 8).map fun (i : ℕ) =>
    max 0 ⌊weeklyDemand * (1 + Real.sin ((id : ℝ) * 123 + (i : ℝ)) * 0.05) +
      Real.cos ((id : ℝ) * 123 + (i : ℝ) * 2) * variability * 0.3⌋

/-- `MemStorage.generateForecast`: derives the demand statistics from the
item's history, then applies the deterministic trig formula. -/
noncomputable def memGenerateForecast (item : InventoryItem) (now : ℤ)
    (demands : List DemandRecord) : List ℤ :=
  memGenerateForecastCore item.id ((memCalculateWeeklyDemand now demands : ℚ) : ℝ)
    (memCalculateDemandVariability now demands)

/-! ## Stock projection and status classification -/

/-- Week status values (`"enough" | "low" | "order"`). -/
inductive WeekCondition where
  | enough
  | low
  | order
  deriving DecidableEq, Repr

/-- One entry of `allWeeks` before classification. -/
structure ProjWeek where
  week : ℤ
  weekStart : ℤ
  weekEnd : ℤ
  projectedStock : ℤ
  isHistorical : Bool
  deriving DecidableEq, Repr

/-- One entry of the classified stock-status sequence. -/
structure StatusWeek extends ProjWeek where
  status : WeekCondition
  deriving DecidableEq, Repr

def dummyProjWeek : ProjWeek := ⟨0, 0, 0, 0, false⟩

def dummyStatusWeek : StatusWeek := ⟨dummyProjWeek, WeekCondition.enough⟩

/-- The breach test of the classifier:
`projectedStock <= 0 || projectedStock <= item.reorderPoint`. -/
def breachB (reorderPoint ps : ℤ) : Bool := decide (ps ≤ 0 ∨ ps ≤ reorderPoint)

/-- Status assigned to index `i` holding projected stock `ps`, given the
index `fo` of the first breaching week (if any): breaching weeks are
`order`, the week exactly one position before the first breach is `low`,
everything else is `enough`. -/
def classifyStatus (reorderPoint : ℤ) (fo : Option ℕ) (i : ℕ) (ps : ℤ) : WeekCondition :=
  if breachB reorderPoint ps then WeekCondition.order
  else
    match fo with
    | some k => if (i : ℤ) = (k : ℤ) - 1 then WeekCondition.low else WeekCondition.enough
    | none => WeekCondition.enough

/-- The two status-assignment passes shared verbatim by
`MemStorage.generateStockStatus` and `PostgreSQLStorage.generateStockStatus`:
find the first breaching week, then annotate every week. -/
def classify (reorderPoint : ℤ) (weeks : List ProjWeek) : List StatusWeek :=
  let fo := weeks.findIdx? fun w => breachB reorderPoint w.projectedStock
  weeks.enum.map fun p => ⟨p.2, classifyStatus reorderPoint fo p.1 p.2.projectedStock⟩

/-- The 4 synthetic historical weeks of `MemStorage.generateStockStatus`
(`i = -4..-1`, here `j = i + 4 = 0..3`): stock is reconstructed as
`floor(currentStock + weeklyDemand * |i|)` clamped to 0. -/
def memHistWeeks (currentStock : ℤ) (weeklyDemand : ℚ) : List ProjWeek :=
  (List.range 4).map fun (j : ℕ) =>
    { week := (j : ℤ) + 1
      weekStart := ((j : ℤ) - 4) * 7
      weekEnd := ((j : ℤ) - 4) * 7 + 6
      projectedStock := max 0 ⌊(currentStock : ℚ) + weeklyDemand * (4 - (j : ℚ))⌋
      isHistorical := true }

/-- The 8 future weeks of `MemStorage.generateStockStatus`: the running
stock after subtracting `forecast[0..i]`, clamped to 0 when recorded
(the accumulator itself is not clamped). -/
def memFutureWeeks (currentStock : ℤ) (forecast : List ℤ) : List ProjWeek :=
  (List.range 8).map fun (i : ℕ) =>
    { week := (i : ℤ) + 5
      weekStart := (i : ℤ) * 7
      weekEnd := (i : ℤ) * 7 + 6
      projectedStock := max 0 (currentStock - (forecast.take (i + 1)).sum)
      isHistorical := false }

/-- `allWeeks` of `MemStorage.generateStockStatus`. -/
def memAllWeeks (currentStock : ℤ) (weeklyDemand : ℚ) (forecast : List ℤ) : List ProjWeek :=
  memHistWeeks currentStock weeklyDemand ++ memFutureWeeks currentStock forecast

/-- `MemStorage.generateStockStatus`, with the weekly demand of the item's
history passed explicitly. -/
def memGenerateStockStatus (currentStock reorderPoint : ℤ) (weeklyDemand : ℚ)
    (forecast : List ℤ) : List StatusWeek :=
  classify reorderPoint (memAllWeeks currentStock weeklyDemand forecast)

/-- `MemStorage.generateStockStatus` as called on an item: the weekly demand
is recomputed from the item's demand history. -/
def itemStockStatus (item : InventoryItem) (now : ℤ) (demands : List DemandRecord)
    (forecast : List ℤ) : List StatusWeek :=
  memGenerateStockStatus item.currentStock item.reorderPoint
    (memCalculateWeeklyDemand now demands) forecast

/-- Historical weeks of `PostgreSQLStorage.generateStockStatus`.  That
implementation computes its `weeklyDemand` as `calculateWeeklyDemand([])`
(the empty list!), and rounds instead of flooring. -/
def pgHistWeeks (currentStock : ℤ) : List ProjWeek :=
  (List.range 4).map fun (j : ℕ) =>
    { week := (j : ℤ) + 1
      weekStart := ((j : ℤ) - 4) * 7
      weekEnd := ((j : ℤ) - 4) * 7 + 6
      projectedStock := max 0 (round ((currentStock : ℚ) +
        pgCalculateWeeklyDemand [] * (4 - (j : ℚ))))
      isHistorical := true }

/-- Future weeks of `PostgreSQLStorage.generateStockStatus`:
`forecast[week] || 0` is read for `week = 0..7` and the running stock is
rounded and clamped when recorded. -/
def pgFutureWeeks (currentStock : ℤ) (forecast : List ℤ) : List ProjWeek :=
  (List.range 8).map fun (i : ℕ) =>
    { week := (i : ℤ) + 5
      weekStart := (i : ℤ) * 7
      weekEnd := (i : ℤ) * 7 + 6
      projectedStock := max 0 (round ((currentStock : ℚ) - ((forecast.take (i + 1)).sum : ℚ)))
      isHistorical := false }

/-- `PostgreSQLStorage.generateStockStatus`. -/
def pgGenerateStockStatus (currentStock reorderPoint : ℤ) (forecast : List ℤ) :
    List StatusWeek :=
  classify reorderPoint (pgHistWeeks currentStock ++ pgFutureWeeks currentStock forecast)

/-! ## Insight generation -/

/-- The three messages `MemStorage.generateAIInsights` can emit, with the
number interpolated into the stockout message carried explicitly. -/
inductive MemInsight where
  | stockout (weeks : ℕ)
  | highDemand
  | overstock
  deriving DecidableEq, Repr

/-- `MemStorage.generateAIInsights`: a stockout countdown whenever any week
(historical included) is classified `order`, citing
`findIndex(status = order) + 1`; a high-demand advisory above 50 units/week;
an overstock advisory above 4x the reorder point. -/
def memGenerateAIInsights (item : InventoryItem) (stockStatus : List StatusWeek)
    (weeklyDemand : ℚ) : List MemInsight :=
  (if 0 < (stockStatus.filter fun s => decide (s.status = WeekCondition.order)).length then
    [MemInsight.stockout
      ((stockStatus.findIdx fun s => decide (s.status = WeekCondition.order)) + 1)]
  else []) ++
  (if 50 < weeklyDemand then [MemInsight.highDemand] else []) ++
  (if item.reorderPoint * 4 < item.currentStock then [MemInsight.overstock] else [])

/-- The messages `PostgreSQLStorage.generateAIInsights` can emit. -/
inductive PgInsight where
  | criticalRunOut (weeks : ℕ)
  | lowWarning (weeks : ℕ)
  | highDemand
  | slowMoving
  | healthy
  deriving DecidableEq, Repr

/-- `PostgreSQLStorage.generateAIInsights`: counts of non-historical `low`
and `order` weeks drive the critical/warning messages; the critical message
cites the **count** of non-historical order weeks. -/
def pgGenerateAIInsights (item : InventoryItem) (stockStatus : List StatusWeek)
    (weeklyDemand : ℚ) : List PgInsight :=
  let lowStockWeeks := (stockStatus.filter fun s =>
    decide (s.status = WeekCondition.low) && !s.isHistorical).length
  let orderWeeks := (stockStatus.filter fun s =>
    decide (s.status = WeekCondition.order) && !s.isHistorical).length
  let insights :=
    (if 0 < orderWeeks then [PgInsight.criticalRunOut orderWeeks]
     else if 2 < lowStockWeeks then [PgInsight.lowWarning lowStockWeeks] else []) ++
    (if (item.currentStock : ℚ) / 2 < weeklyDemand then [PgInsight.highDemand] else []) ++
    (if 12 < (item.currentStock : ℚ) / max weeklyDemand 1 then [PgInsight.slowMoving] else [])
  if insights.isEmpty then [PgInsight.healthy] else insights

/-! ## Reading classified sequences -/

/-- Projected stock of entry `i` breaches the reorder threshold
(the classifier's `order` condition, as a proposition on the output). -/
def breachesAt (reorderPoint : ℤ) (S : List StatusWeek) (i : ℕ) : Prop :=
  (S.getD i dummyStatusWeek).projectedStock ≤ 0 ∨
    (S.getD i dummyStatusWeek).projectedStock ≤ reorderPoint

instance (reorderPoint : ℤ) (S : List StatusWeek) (i : ℕ) :
    Decidable (breachesAt reorderPoint S i) := by
  unfold breachesAt; infer_instance

/-- Status of entry `i` of a classified sequence. -/
def statusAt (S : List StatusWeek) (i : ℕ) : WeekCondition :=
  (S.getD i dummyStatusWeek).status

/-- Projected stock of entry `i` of a classified sequence. -/
def projAt (S : List StatusWeek) (i : ℕ) : ℤ :=
  (S.getD i dummyStatusWeek).projectedStock

/-! ## Helper lemmas about the classifier -/

theorem classify_length (reorderPoint : ℤ) (weeks : List ProjWeek) :
    (classify reorderPoint weeks).length = weeks.length := by
  simp [classify]

theorem classify_getD (reorderPoint : ℤ) (weeks : List ProjWeek) (i : ℕ)
    (h : i < weeks.length) :
    (classify reorderPoint weeks).getD i dummyStatusWeek =
      ⟨weeks.getD i dummyProjWeek,
        classifyStatus reorderPoint
          (weeks.findIdx? fun w => breachB reorderPoint w.projectedStock) i
          (weeks.getD i dummyProjWeek).projectedStock⟩ := by
  have h' : i < (classify reorderPoint weeks).length := by
    rwa [classify_length]
  rw [List.getD_eq_getElem _ _ h', List.getD_eq_getElem _ _ h]
  simp [classify, List.enum]

theorem classify_getD_ps (reorderPoint : ℤ) (weeks : List ProjWeek) (i : ℕ)
    (h : i < weeks.length) :
    projAt (classify reorderPoint weeks) i =
      (weeks.getD i dummyProjWeek).projectedStock := by
  rw [projAt, classify_getD reorderPoint weeks i h]

theorem classify_getD_isHistorical (reorderPoint : ℤ) (weeks : List ProjWeek) (i : ℕ)
    (h : i < weeks.length) :
    ((classify reorderPoint weeks).getD i dummyStatusWeek).isHistorical =
      (weeks.getD i dummyProjWeek).isHistorical := by
  rw [classify_getD reorderPoint weeks i h]

theorem classify_getD_status (reorderPoint : ℤ) (weeks : List ProjWeek) (i : ℕ)
    (h : i < weeks.length) :
    statusAt (classify reorderPoint weeks) i =
      classifyStatus reorderPoint
        (weeks.findIdx? fun w => breachB reorderPoint w.projectedStock) i
        (weeks.getD i dummyProjWeek).projectedStock := by
  rw [statusAt, classify_getD reorderPoint weeks i h]

theorem classifyStatus_eq_order_iff (reorderPoint : ℤ) (fo : Option ℕ) (i : ℕ) (ps : ℤ) :
    classifyStatus reorderPoint fo i ps = WeekCondition.order ↔
      breachB reorderPoint ps = true := by
  unfold classifyStatus
  by_cases hb : breachB reorderPoint ps = true
  · simp [hb]
  · simp only [hb, Bool.false_eq_true, if_false]
    rcases fo with _ | k
    · simp [hb]
    · by_cases hik : (i : ℤ) = (k : ℤ) - 1 <;> simp [hik, hb]

theorem classifyStatus_eq_low_iff (reorderPoint : ℤ) (fo : Option ℕ) (i : ℕ) (ps : ℤ) :
    classifyStatus reorderPoint fo i ps = WeekCondition.low ↔
      (breachB reorderPoint ps = false ∧ fo = some (i + 1)) := by
  unfold classifyStatus
  by_cases hb : breachB reorderPoint ps = true
  · simp [hb]
  · rw [Bool.not_eq_true] at hb
    simp only [hb, Bool.false_eq_true, if_false]
    rcases fo with _ | k
    · simp [hb]
    · by_cases hik : (i : ℤ) = (k : ℤ) - 1
      · have hk : k = i + 1 := by omega
        subst hk
        exact iff_of_true (if_pos hik) (by simp [hb])
      · have hk : ¬(some k = some (i + 1)) := by
          intro hcontra
          apply hik
          have hki : k = i + 1 := Option.some.inj hcontra
          omega
        exact iff_of_false
          (fun hcontra => WeekCondition.noConfusion ((if_neg hik).symm.trans hcontra))
          (fun hcontra => hk hcontra.2)

theorem status_eq_order_iff (reorderPoint : ℤ) (weeks : List ProjWeek) (i : ℕ)
    (h : i < weeks.length) :
    statusAt (classify reorderPoint weeks) i = WeekCondition.order ↔
      breachB reorderPoint ((weeks.getD i dummyProjWeek).projectedStock) = true := by
  rw [classify_getD_status reorderPoint weeks i h]
  exact classifyStatus_eq_order_iff reorderPoint _ i _

theorem status_eq_low_iff (reorderPoint : ℤ) (weeks : List ProjWeek) (i : ℕ)
    (h : i < weeks.length) :
    statusAt (classify reorderPoint weeks) i = WeekCondition.low ↔
      (weeks.findIdx? fun w => breachB reorderPoint w.projectedStock) = some (i + 1) := by
  rw [classify_getD_status reorderPoint weeks i h,
    classifyStatus_eq_low_iff reorderPoint _ i _]
  constructor
  · exact fun hlow => hlow.2
  · intro hfo
    refine ⟨?_, hfo⟩
    obtain ⟨hlen, -, hmin⟩ := List.findIdx?_eq_some_iff_getElem.mp hfo
    have hnb := hmin i (Nat.lt_succ_self i)
    rw [← List.getD_eq_getElem weeks dummyProjWeek (by omega : i < weeks.length)] at hnb
    simpa using hnb

theorem status_eq_enough_of (reorderPoint : ℤ) (weeks : List ProjWeek) (i k : ℕ)
    (h : i < weeks.length)
    (hfo : (weeks.findIdx? fun w => breachB reorderPoint w.projectedStock) = some k)
    (hnb : breachB reorderPoint ((weeks.getD i dummyProjWeek).projectedStock) = false)
    (hik : (i : ℤ) ≠ (k : ℤ) - 1) :
    statusAt (classify reorderPoint weeks) i = WeekCondition.enough := by
  rw [classify_getD_status reorderPoint weeks i h]
  unfold classifyStatus
  rw [hfo, hnb]
  simp [hik]

/-! ## Index views of the projected-stock lists -/

/-- Projected stock at position `i` of `MemStorage`'s `allWeeks`
(positions 0-3 historical, 4-11 future). -/
def memPS (currentStock : ℤ) (weeklyDemand : ℚ) (forecast : List ℤ) (i : ℕ) : ℤ :=
  if i < 4 then max 0 ⌊(currentStock : ℚ) + weeklyDemand * (4 - (i : ℚ))⌋
  else max 0 (currentStock - (forecast.take (i - 4 + 1)).sum)

/-- Projected stock at position `i` of `PostgreSQLStorage`'s `allWeeks`:
its historical weeks use `weeklyDemand = calculateWeeklyDemand([]) = 0`. -/
def pgPS (currentStock : ℤ) (forecast : List ℤ) (i : ℕ) : ℤ :=
  if i < 4 then max 0 currentStock
  else max 0 (currentStock - (forecast.take (i - 4 + 1)).sum)

theorem length_memAllWeeks (cs : ℤ) (wd : ℚ) (f : List ℤ) :
    (memAllWeeks cs wd f).length = 12 := by
  simp [memAllWeeks, memHistWeeks, memFutureWeeks]

theorem length_memGenerateStockStatus (cs rp : ℤ) (wd : ℚ) (f : List ℤ) :
    (memGenerateStockStatus cs rp wd f).length = 12 := by
  rw [memGenerateStockStatus, classify_length, length_memAllWeeks]

theorem length_pgAllWeeks (cs : ℤ) (f : List ℤ) :
    (pgHistWeeks cs ++ pgFutureWeeks cs f).length = 12 := by
  simp [pgHistWeeks, pgFutureWeeks]

theorem length_pgGenerateStockStatus (cs rp : ℤ) (f : List ℤ) :
    (pgGenerateStockStatus cs rp f).length = 12 := by
  rw [pgGenerateStockStatus, classify_length, length_pgAllWeeks]

theorem memAllWeeks_getD_ps (cs : ℤ) (wd : ℚ) (f : List ℤ) (i : ℕ) (h : i < 12) :
    ((memAllWeeks cs wd f).getD i dummyProjWeek).projectedStock = memPS cs wd f i := by
  rw [List.getD_eq_getElem _ _ (by rw [length_memAllWeeks]; exact h)]
  unfold memAllWeeks memPS
  by_cases h4 : i < 4
  · rw [List.getElem_append_left (by simpa [memHistWeeks] using h4)]
    rw [if_pos h4]
    simp [memHistWeeks]
  · rw [List.getElem_append_right (by simpa [memHistWeeks] using h4)]
    rw [if_neg h4]
    simp only [memHistWeeks, memFutureWeeks, List.length_map, List.length_range]
    rw [List.getElem_map, List.getElem_range]

theorem memAllWeeks_getD_isHistorical (cs : ℤ) (wd : ℚ) (f : List ℤ) (i : ℕ) (h : i < 12) :
    ((memAllWeeks cs wd f).getD i dummyProjWeek).isHistorical = decide (i < 4) := by
  rw [List.getD_eq_getElem _ _ (by rw [length_memAllWeeks]; exact h)]
  unfold memAllWeeks
  by_cases h4 : i < 4
  · rw [List.getElem_append_left (by simpa [memHistWeeks] using h4)]
    simp [memHistWeeks, h4]
  · rw [List.getElem_append_right (by simpa [memHistWeeks] using h4)]
    simp only [memHistWeeks, memFutureWeeks, List.length_map, List.length_range]
    rw [List.getElem_map, List.getElem_range]
    simp [h4]

theorem pgAllWeeks_getD_ps (cs : ℤ) (f : List ℤ) (i : ℕ) (h : i < 12) :
    ((pgHistWeeks cs ++ pgFutureWeeks cs f).getD i dummyProjWeek).projectedStock =
      pgPS cs f i := by
  rw [List.getD_eq_getElem _ _ (by rw [length_pgAllWeeks]; exact h)]
  unfold pgPS
  by_cases h4 : i < 4
  · rw [List.getElem_append_left (by simpa [pgHistWeeks] using h4)]
    rw [if_pos h4]
    simp only [pgHistWeeks, List.getElem_map, List.getElem_range]
    rw [pgCalculateWeeklyDemand]
    norm_num
  · rw [List.getElem_append_right (by simpa [pgHistWeeks] using h4)]
    rw [if_neg h4]
    simp only [pgHistWeeks, pgFutureWeeks, List.length_map, List.length_range]
    rw [List.getElem_map, List.getElem_range]
    have hcast : (cs : ℚ) - ((f.take (i - 4 + 1)).sum : ℚ) =
        ((cs - (f.take (i - 4 + 1)).sum : ℤ) : ℚ) := by push_cast; ring
    simp only [hcast, round_intCast]

theorem pgAllWeeks_getD_isHistorical (cs : ℤ) (f : List ℤ) (i : ℕ) (h : i < 12) :
    ((pgHistWeeks cs ++ pgFutureWeeks cs f).getD i dummyProjWeek).isHistorical =
      decide (i < 4) := by
  rw [List.getD_eq_getElem _ _ (by rw [length_pgAllWeeks]; exact h)]
  by_cases h4 : i < 4
  · rw [List.getElem_append_left (by simpa [pgHistWeeks] using h4)]
    simp [pgHistWeeks, h4]
  · rw [List.getElem_append_right (by simpa [pgHistWeeks] using h4)]
    simp only [pgHistWeeks, pgFutureWeeks, List.length_map, List.length_range]
    rw [List.getElem_map, List.getElem_range]
    simp [h4]

/-! ## Monotonicity of the projected-stock sequences -/

theorem take_sum_mono (f : List ℤ) (hf : ∀ x ∈ f, 0 ≤ x) (m : ℕ) :
    (f.take m).sum ≤ (f.take (m + 1)).sum := by
  rw [List.take_succ, List.sum_append]
  have h0 : 0 ≤ (f[m]?.toList).sum := by
    apply List.sum_nonneg
    intro x hx
    rcases hm : f[m]? with _ | y
    · rw [hm] at hx; simp at hx
    · rw [hm] at hx
      simp only [Option.toList_some, List.mem_singleton] at hx
      subst hx
      exact hf x (List.getElem?_mem hm)
  omega

theorem take_sum_nonneg (f : List ℤ) (hf : ∀ x ∈ f, 0 ≤ x) (m : ℕ) :
    0 ≤ (f.take m).sum :=
  List.sum_nonneg fun x hx => hf x (List.mem_of_mem_take hx)

theorem memPS_succ_le (cs : ℤ) (wd : ℚ) (f : List ℤ) (hwd : 0 ≤ wd)
    (hf : ∀ x ∈ f, 0 ≤ x) (i : ℕ) :
    memPS cs wd f (i + 1) ≤ memPS cs wd f i := by
  unfold memPS
  by_cases h1 : i + 1 < 4
  · have h0 : i < 4 := by omega
    rw [if_pos h1, if_pos h0]
    apply max_le_max le_rfl
    apply Int.floor_le_floor
    have hle : ((i : ℚ)) ≤ ((i : ℚ)) + 1 := by linarith
    have : wd * (4 - ((i + 1 : ℕ) : ℚ)) ≤ wd * (4 - (i : ℚ)) := by
      apply mul_le_mul_of_nonneg_left _ hwd
      push_cast
      linarith
    linarith
  · by_cases h0 : i < 4
    · have hi3 : i = 3 := by omega
      subst hi3
      rw [if_neg h1, if_pos h0]
      apply max_le_max le_rfl
      have hsum : 0 ≤ (f.take (3 + 1 - 4 + 1)).sum := take_sum_nonneg f hf _
      have hfloor : cs ≤ ⌊(cs : ℚ) + wd * (4 - ((3 : ℕ) : ℚ))⌋ := by
        rw [Int.le_floor]
        push_cast
        nlinarith
      omega
    · rw [if_neg h1, if_neg h0]
      apply max_le_max le_rfl
      have heq : i + 1 - 4 + 1 = (i - 4 + 1) + 1 := by omega
      rw [heq]
      have := take_sum_mono f hf (i - 4 + 1)
      omega

theorem memPS_antitone (cs : ℤ) (wd : ℚ) (f : List ℤ) (hwd : 0 ≤ wd)
    (hf : ∀ x ∈ f, 0 ≤ x) {i j : ℕ} (hij : i ≤ j) :
    memPS cs wd f j ≤ memPS cs wd f i := by
  induction j, hij using Nat.le_induction with
  | base => exact le_rfl
  | succ n hn ih => exact le_trans (memPS_succ_le cs wd f hwd hf n) ih

theorem pgPS_succ_le (cs : ℤ) (f : List ℤ) (hf : ∀ x ∈ f, 0 ≤ x) (i : ℕ) :
    pgPS cs f (i + 1) ≤ pgPS cs f i := by
  unfold pgPS
  by_cases h1 : i + 1 < 4
  · have h0 : i < 4 := by omega
    rw [if_pos h1, if_pos h0]
  · by_cases h0 : i < 4
    · rw [if_neg h1, if_pos h0]
      apply max_le_max le_rfl
      have hsum : 0 ≤ (f.take (i + 1 - 4 + 1)).sum := take_sum_nonneg f hf _
      omega
    · rw [if_neg h1, if_neg h0]
      apply max_le_max le_rfl
      have heq : i + 1 - 4 + 1 = (i - 4 + 1) + 1 := by omega
      rw [heq]
      have := take_sum_mono f hf (i - 4 + 1)
      omega

theorem pgPS_antitone (cs : ℤ) (f : List ℤ) (hf : ∀ x ∈ f, 0 ≤ x) {i j : ℕ}
    (hij : i ≤ j) : pgPS cs f j ≤ pgPS cs f i := by
  induction j, hij using Nat.le_induction with
  | base => exact le_rfl
  | succ n hn ih => exact le_trans (pgPS_succ_le cs f hf n) ih

theorem breachB_mono (reorderPoint : ℤ) {a b : ℤ} (hab : b ≤ a)
    (h : breachB reorderPoint a = true) : breachB reorderPoint b = true := by
  simp only [breachB, decide_eq_true_eq] at h ⊢
  omega

theorem memCalculateWeeklyDemand_nonneg (now : ℤ) (demands : List DemandRecord) :
    0 ≤ memCalculateWeeklyDemand now demands := by
  unfold memCalculateWeeklyDemand
  positivity

theorem memWeekTotal_nil (now : ℤ) (off : ℕ) : memWeekTotal now [] off = 0 := rfl

theorem memWeeklyTotals_nil (now : ℤ) : memWeeklyTotals now [] = List.replicate 12 0 := by
  unfold memWeeklyTotals
  refine List.eq_replicate_iff.mpr ⟨by simp, ?_⟩
  intro b hb
  obtain ⟨off, -, rfl⟩ := List.mem_map.1 hb
  rfl

theorem memCalculateWeeklyDemand_nil (now : ℤ) : memCalculateWeeklyDemand now [] = 0 := by
  rw [memCalculateWeeklyDemand, memWeeklyTotals_nil]
  simp

theorem memPS_nonneg (cs : ℤ) (wd : ℚ) (f : List ℤ) (i : ℕ) : 0 ≤ memPS cs wd f i := by
  unfold memPS
  split <;> exact le_max_left 0 _

theorem pgPS_nonneg (cs : ℤ) (f : List ℤ) (i : ℕ) : 0 ≤ pgPS cs f i := by
  unfold pgPS
  split <;> exact le_max_left 0 _

theorem breachesAt_iff (reorderPoint : ℤ) (weeks : List ProjWeek) (i : ℕ)
    (h : i < weeks.length) :
    breachesAt reorderPoint (classify reorderPoint weeks) i ↔
      breachB reorderPoint ((weeks.getD i dummyProjWeek).projectedStock) = true := by
  unfold breachesAt
  have hps := classify_getD_ps reorderPoint weeks i h
  rw [projAt] at hps
  rw [hps, breachB, decide_eq_true_eq]

/-- The classification invariant of §4.4: whenever `k` is the position of the
first entry whose projected stock breaches the threshold, every position at
or after `k` is `order` and every position before `k` other than `k - 1` is
`enough`. -/
def firstBreachProperty (reorderPoint : ℤ) (S : List StatusWeek) : Prop :=
  ∀ k, k < S.length → breachesAt reorderPoint S k →
    (∀ j, j < k → ¬breachesAt reorderPoint S j) →
    (∀ i, k ≤ i → i < S.length → statusAt S i = WeekCondition.order) ∧
    (∀ i, i < k → i + 1 ≠ k → statusAt S i = WeekCondition.enough)

theorem firstBreachProperty_classify (reorderPoint : ℤ) (weeks : List ProjWeek)
    (hmono : ∀ i j : ℕ, i ≤ j → j < weeks.length →
      (weeks.getD j dummyProjWeek).projectedStock ≤
        (weeks.getD i dummyProjWeek).projectedStock) :
    firstBreachProperty reorderPoint (classify reorderPoint weeks) := by
  intro k hk hbk hmin
  rw [classify_length] at hk
  rw [breachesAt_iff reorderPoint weeks k hk] at hbk
  have hmin' : ∀ j, j < k →
      breachB reorderPoint ((weeks.getD j dummyProjWeek).projectedStock) = false := by
    intro j hj
    have := hmin j hj
    rw [breachesAt_iff reorderPoint weeks j (lt_trans hj hk)] at this
    simpa using this
  have hfo : (weeks.findIdx? fun w => breachB reorderPoint w.projectedStock) = some k := by
    rw [List.findIdx?_eq_some_iff_getElem]
    refine ⟨hk, ?_, ?_⟩
    · rw [← List.getD_eq_getElem weeks dummyProjWeek hk]
      exact hbk
    · intro j hj
      rw [← List.getD_eq_getElem weeks dummyProjWeek (lt_trans hj hk), Bool.not_eq_true]
      exact hmin' j hj
  constructor
  · intro i hki hi
    rw [classify_length] at hi
    rw [status_eq_order_iff reorderPoint weeks i hi]
    exact breachB_mono reorderPoint (hmono k i hki hi) hbk
  · intro i hik hik1
    exact status_eq_enough_of reorderPoint weeks i k (lt_trans hik hk) hfo
      (hmin' i hik) (by omega)

/-! ## Integer evaluation bridge

When the weekly demand is an integer (e.g. 0, as for an empty history), the
historical floors disappear and the whole classified sequence is computable
by `decide`.  These helpers are proof devices only; the source-faithful
definitions above remain the subject of every claim. -/

/-- `memHistWeeks` when the weekly demand is the integer `w`. -/
def intHistWeeks (cs w : ℤ) : List ProjWeek :=
  (List.range 4).map fun (j : ℕ) =>
    { week := (j : ℤ) + 1
      weekStart := ((j : ℤ) - 4) * 7
      weekEnd := ((j : ℤ) - 4) * 7 + 6
      projectedStock := max 0 (cs + w * (4 - (j : ℤ)))
      isHistorical := true }

/-- `memGenerateStockStatus` with integer weekly demand, fully computable. -/
def memStockStatusInt (cs rp w : ℤ) (f : List ℤ) : List StatusWeek :=
  classify rp (intHistWeeks cs w ++ memFutureWeeks cs f)

theorem memGenerateStockStatus_intCast (cs rp w : ℤ) (f : List ℤ) :
    memGenerateStockStatus cs rp ((w : ℤ) : ℚ) f = memStockStatusInt cs rp w f := by
  unfold memGenerateStockStatus memStockStatusInt memAllWeeks
  congr 2
  unfold memHistWeeks intHistWeeks
  apply List.map_congr_left
  intro j _
  have hcast : (cs : ℚ) + (w : ℚ) * (4 - (j : ℚ)) =
      ((cs + w * (4 - (j : ℤ)) : ℤ) : ℚ) := by push_cast; ring
  rw [hcast, Int.floor_intCast]

theorem itemStockStatus_nil (item : InventoryItem) (now : ℤ) (f : List ℤ) :
    itemStockStatus item now [] f =
      memStockStatusInt item.currentStock item.reorderPoint 0 f := by
  rw [itemStockStatus, memCalculateWeeklyDemand_nil,
    show (0 : ℚ) = ((0 : ℤ) : ℚ) by norm_num, memGenerateStockStatus_intCast]

/-! ## Claim theorems -/

/-- **C1.** For every item, in the 12-entry classified week sequence produced
by `generateStockStatus` (both storage variants, any non-negative forecast),
the first week whose projected stock is `<= 0` or `<= reorderPoint` and every
week at or after it is classified `order` (breaching historical weeks
included), and every non-breaching week before it is classified `enough`,
except possibly the single week immediately before it. -/
theorem stockStatus_first_breach_classification (item : InventoryItem) (now : ℤ)
    (demands : List DemandRecord) (forecast : List ℤ)
    (hf : ∀ x ∈ forecast, 0 ≤ x) :
    (itemStockStatus item now demands forecast).length = 12 ∧
    firstBreachProperty item.reorderPoint (itemStockStatus item now demands forecast) ∧
    (pgGenerateStockStatus item.currentStock item.reorderPoint forecast).length = 12 ∧
    firstBreachProperty item.reorderPoint
      (pgGenerateStockStatus item.currentStock item.reorderPoint forecast) := by
  refine ⟨length_memGenerateStockStatus _ _ _ _, ?_,
    length_pgGenerateStockStatus _ _ _, ?_⟩
  · apply firstBreachProperty_classify
    intro i j hij hj
    rw [length_memAllWeeks] at hj
    rw [memAllWeeks_getD_ps _ _ _ i (by omega), memAllWeeks_getD_ps _ _ _ j hj]
    exact memPS_antitone _ _ _ (memCalculateWeeklyDemand_nonneg now demands) hf hij
  · apply firstBreachProperty_classify
    intro i j hij hj
    rw [length_pgAllWeeks] at hj
    rw [pgAllWeeks_getD_ps _ _ i (by omega), pgAllWeeks_getD_ps _ _ j hj]
    exact pgPS_antitone _ _ hf hij

theorem stockStatus_first_breach_classification_witness :
    (∀ x ∈ List.replicate 8 (12 : ℤ), 0 ≤ x) ∧
    statusAt (itemStockStatus ⟨3, 45, 60, 20, 0, 3⟩ 0 [] (List.replicate 8 12)) 11 =
      WeekCondition.order := by
  have hf : ∀ x ∈ List.replicate 8 (12 : ℤ), 0 ≤ x := by decide
  refine ⟨hf, ?_⟩
  have h := stockStatus_first_breach_classification ⟨3, 45, 60, 20, 0, 3⟩ 0 []
    (List.replicate 8 12) hf
  have hlen := h.1
  have hS := h.2.1 0 (by rw [hlen]; norm_num)
  refine (hS ?_ ?_).1 11 (by omega) (by rw [hlen]; omega)
  · rw [breachesAt]
    rw [itemStockStatus, memGenerateStockStatus]
    have h0 : (0 : ℕ) < (memAllWeeks 45 (memCalculateWeeklyDemand 0 []) (List.replicate 8 12)).length := by
      rw [length_memAllWeeks]; norm_num
    have := classify_getD_ps 60 (memAllWeeks 45 (memCalculateWeeklyDemand 0 []) (List.replicate 8 12)) 0 h0
    rw [projAt] at this
    rw [this, memAllWeeks_getD_ps _ _ _ 0 (by norm_num), memPS]
    rw [memCalculateWeeklyDemand_nil]
    norm_num
  · intro j hj
    omega

/-- **C2.** For every item, the classified week sequence contains at most one
week with status `low`; if some week has status `low`, the chronologically
next week has status `order` and no week before the `low` week has status
`order`; and if no week at all has status `order`, then no week has status
`low`. -/
theorem stockStatus_low_week_invariants (item : InventoryItem) (now : ℤ)
    (demands : List DemandRecord) (forecast : List ℤ) :
    (∀ i j, i < 12 → j < 12 →
      statusAt (itemStockStatus item now demands forecast) i = WeekCondition.low →
      statusAt (itemStockStatus item now demands forecast) j = WeekCondition.low →
      i = j) ∧
    (∀ i, i < 12 →
      statusAt (itemStockStatus item now demands forecast) i = WeekCondition.low →
      i + 1 < 12 ∧
      statusAt (itemStockStatus item now demands forecast) (i + 1) = WeekCondition.order ∧
      ∀ j, j < i →
        statusAt (itemStockStatus item now demands forecast) j ≠ WeekCondition.order) ∧
    ((∀ i, i < 12 →
        statusAt (itemStockStatus item now demands forecast) i ≠ WeekCondition.order) →
      ∀ i, i < 12 →
        statusAt (itemStockStatus item now demands forecast) i ≠ WeekCondition.low) := by
  have hlen : (memAllWeeks item.currentStock (memCalculateWeeklyDemand now demands)
      forecast).length = 12 := length_memAllWeeks _ _ _
  have hlow : ∀ i, i < 12 →
      (statusAt (itemStockStatus item now demands forecast) i = WeekCondition.low ↔
        ((memAllWeeks item.currentStock (memCalculateWeeklyDemand now demands)
            forecast).findIdx? fun w => breachB item.reorderPoint w.projectedStock) =
          some (i + 1)) := by
    intro i hi
    exact status_eq_low_iff item.reorderPoint _ i (by omega)
  have horder : ∀ i, i < 12 →
      (statusAt (itemStockStatus item now demands forecast) i = WeekCondition.order ↔
        breachB item.reorderPoint
          (((memAllWeeks item.currentStock (memCalculateWeeklyDemand now demands)
            forecast).getD i dummyProjWeek).projectedStock) = true) := by
    intro i hi
    exact status_eq_order_iff item.reorderPoint _ i (by omega)
  have hstep : ∀ i, i < 12 →
      statusAt (itemStockStatus item now demands forecast) i = WeekCondition.low →
      i + 1 < 12 ∧
      statusAt (itemStockStatus item now demands forecast) (i + 1) = WeekCondition.order ∧
      ∀ j, j < i →
        statusAt (itemStockStatus item now demands forecast) j ≠ WeekCondition.order := by
    intro i hi hlowi
    have hfo := (hlow i hi).1 hlowi
    obtain ⟨hl, hp, hmin⟩ := List.findIdx?_eq_some_iff_getElem.mp hfo
    rw [hlen] at hl
    refine ⟨hl, ?_, ?_⟩
    · rw [horder (i + 1) hl]
      rw [← List.getD_eq_getElem _ dummyProjWeek (by omega)] at hp
      exact hp
    · intro j hj hcontra
      rw [horder j (by omega)] at hcontra
      have hnb := hmin j (by omega)
      rw [← List.getD_eq_getElem _ dummyProjWeek (by omega)] at hnb
      exact hnb hcontra
  refine ⟨?_, hstep, ?_⟩
  · intro i j hi hj hlowi hlowj
    have h1 := (hlow i hi).1 hlowi
    have h2 := (hlow j hj).1 hlowj
    rw [h1] at h2
    have := Option.some.inj h2
    omega
  · intro hno i hi hlowi
    obtain ⟨hl, ho, -⟩ := hstep i hi hlowi
    exact hno (i + 1) hl ho

theorem stockStatus_low_week_invariants_witness :
    statusAt (itemStockStatus ⟨1, 100, 30, 0, 0, 0⟩ 0 [] (List.replicate 8 50)) 4 =
      WeekCondition.low ∧
    statusAt (itemStockStatus ⟨1, 100, 30, 0, 0, 0⟩ 0 [] (List.replicate 8 50)) 5 =
      WeekCondition.order := by
  have hlow : statusAt (itemStockStatus ⟨1, 100, 30, 0, 0, 0⟩ 0 []
      (List.replicate 8 50)) 4 = WeekCondition.low := by
    rw [itemStockStatus_nil]
    decide
  have h := (stockStatus_low_week_invariants ⟨1, 100, 30, 0, 0, 0⟩ 0 []
    (List.replicate 8 50)).2.1 4 (by omega) hlow
  exact ⟨hlow, h.2.1⟩

/-- **C3.** For every item with non-negative `currentStock` and non-negative
forecast values (the weekly demand derived from the history is non-negative
by construction), every entry of the 12-entry sequence produced by
`generateStockStatus` — historical and future, in both storage variants —
has non-negative `projectedStock`. -/
theorem stockStatus_projected_nonneg (item : InventoryItem) (now : ℤ)
    (demands : List DemandRecord) (forecast : List ℤ)
    (h0 : 0 ≤ item.currentStock) (hf : ∀ x ∈ forecast, 0 ≤ x) :
    (itemStockStatus item now demands forecast).length = 12 ∧
    (∀ w ∈ itemStockStatus item now demands forecast, 0 ≤ w.projectedStock) ∧
    (pgGenerateStockStatus item.currentStock item.reorderPoint forecast).length = 12 ∧
    (∀ w ∈ pgGenerateStockStatus item.currentStock item.reorderPoint forecast,
      0 ≤ w.projectedStock) := by
  refine ⟨length_memGenerateStockStatus _ _ _ _, ?_,
    length_pgGenerateStockStatus _ _ _, ?_⟩
  · intro w hw
    obtain ⟨i, hi, rfl⟩ := List.mem_iff_getElem.1 hw
    rw [← List.getD_eq_getElem _ dummyStatusWeek hi]
    have hi12 : i < 12 := by
      rw [itemStockStatus, length_memGenerateStockStatus] at hi
      exact hi
    have hps := classify_getD_ps item.reorderPoint
      (memAllWeeks item.currentStock (memCalculateWeeklyDemand now demands) forecast) i
      (by rw [length_memAllWeeks]; exact hi12)
    rw [projAt] at hps
    rw [itemStockStatus, memGenerateStockStatus, hps,
      memAllWeeks_getD_ps _ _ _ i hi12]
    exact memPS_nonneg _ _ _ i
  · intro w hw
    obtain ⟨i, hi, rfl⟩ := List.mem_iff_getElem.1 hw
    rw [← List.getD_eq_getElem _ dummyStatusWeek hi]
    have hi12 : i < 12 := by
      rw [length_pgGenerateStockStatus] at hi
      exact hi
    have hps := classify_getD_ps item.reorderPoint
      (pgHistWeeks item.currentStock ++ pgFutureWeeks item.currentStock forecast) i
      (by rw [length_pgAllWeeks]; exact hi12)
    rw [projAt] at hps
    rw [pgGenerateStockStatus, hps, pgAllWeeks_getD_ps _ _ i hi12]
    exact pgPS_nonneg _ _ i

theorem stockStatus_projected_nonneg_witness :
    (0 : ℤ) ≤ 45 ∧
    (itemStockStatus ⟨3, 45, 60, 20, 0, 3⟩ 0 [] (List.replicate 8 12)).length = 12 :=
  ⟨by decide,
    (stockStatus_projected_nonneg ⟨3, 45, 60, 20, 0, 3⟩ 0 [] (List.replicate 8 12)
      (by decide) (by decide)).1⟩

/-- **C7.** For every item whose `currentStock` is strictly below its
`reorderPoint`, the entry for week 0 (the first non-historical week, position
4 of the classified sequence) has status `order`, for any non-negative
forecast values. -/
theorem week0_order_when_below_reorder (item : InventoryItem) (now : ℤ)
    (demands : List DemandRecord) (forecast : List ℤ)
    (hlt : item.currentStock < item.reorderPoint) (hf : ∀ x ∈ forecast, 0 ≤ x) :
    statusAt (itemStockStatus item now demands forecast) 4 = WeekCondition.order ∧
    ((itemStockStatus item now demands forecast).getD 4 dummyStatusWeek).isHistorical =
      false := by
  have h4 : (4 : ℕ) < (memAllWeeks item.currentStock
      (memCalculateWeeklyDemand now demands) forecast).length := by
    rw [length_memAllWeeks]; omega
  constructor
  · rw [itemStockStatus, memGenerateStockStatus,
      status_eq_order_iff item.reorderPoint _ 4 h4,
      memAllWeeks_getD_ps _ _ _ 4 (by omega), memPS]
    rw [if_neg (by omega)]
    have hsum : 0 ≤ (forecast.take (4 - 4 + 1)).sum := take_sum_nonneg forecast hf _
    simp only [breachB, decide_eq_true_eq]
    rcases max_cases 0 (item.currentStock - (forecast.take (4 - 4 + 1)).sum) with
      ⟨heq, -⟩ | ⟨heq, -⟩ <;> rw [heq] <;> omega
  · rw [itemStockStatus, memGenerateStockStatus,
      classify_getD_isHistorical item.reorderPoint _ 4 h4,
      memAllWeeks_getD_isHistorical _ _ _ 4 (by omega)]
    decide

theorem week0_order_when_below_reorder_witness :
    (45 : ℤ) < 60 ∧
    statusAt (itemStockStatus ⟨3, 45, 60, 20, 0, 3⟩ 0 [] (List.replicate 8 12)) 4 =
      WeekCondition.order :=
  ⟨by decide,
    (week0_order_when_below_reorder ⟨3, 45, 60, 20, 0, 3⟩ 0 [] (List.replicate 8 12)
      (by decide) (by decide)).1⟩

/-- **C10.** For every item with non-negative `currentStock`, non-negative
demand history, and non-negative forecast values, the projected stocks of
the 12-entry sequence produced by `MemStorage.generateStockStatus` are
non-increasing in chronological order. -/
theorem projectedStock_antitone_claim (item : InventoryItem) (now : ℤ)
    (demands : List DemandRecord) (forecast : List ℤ)
    (h0 : 0 ≤ item.currentStock) (hf : ∀ x ∈ forecast, 0 ≤ x) :
    (itemStockStatus item now demands forecast).length = 12 ∧
    ∀ i j, i ≤ j → j < 12 →
      projAt (itemStockStatus item now demands forecast) j ≤
        projAt (itemStockStatus item now demands forecast) i := by
  refine ⟨length_memGenerateStockStatus _ _ _ _, ?_⟩
  intro i j hij hj
  have hi : i < 12 := by omega
  rw [itemStockStatus, memGenerateStockStatus,
    classify_getD_ps item.reorderPoint _ i (by rw [length_memAllWeeks]; exact hi),
    classify_getD_ps item.reorderPoint _ j (by rw [length_memAllWeeks]; exact hj),
    memAllWeeks_getD_ps _ _ _ i hi, memAllWeeks_getD_ps _ _ _ j hj]
  exact memPS_antitone _ _ _ (memCalculateWeeklyDemand_nonneg now demands) hf hij

/-- **C4.** For every item and demand history, the forecast produced by
`MemStorage.generateForecast` is a sequence of exactly 8 non-negative
integers whose value at 0-based index `i` is
`max(0, floor(weeklyDemand * (1 + sin(seed + i) * 0.05)
+ cos(seed + i * 2) * demandVariability * 0.3))` with `seed = id * 123`. -/
theorem generateForecast_formula (item : InventoryItem) (now : ℤ)
    (demands : List DemandRecord) :
    (memGenerateForecast item now demands).length = 8 ∧
    (∀ x ∈ memGenerateForecast item now demands, 0 ≤ x) ∧
    (∀ i : Fin 8, (memGenerateForecast item now demands).getD (i : ℕ) 0 =
      max 0 ⌊((memCalculateWeeklyDemand now demands : ℚ) : ℝ) *
          (1 + Real.sin ((item.id : ℝ) * 123 + ((i : ℕ) : ℝ)) * 0.05) +
        Real.cos ((item.id : ℝ) * 123 + ((i : ℕ) : ℝ) * 2) *
          memCalculateDemandVariability now demands * 0.3⌋) := by
  refine ⟨by simp [memGenerateForecast, memGenerateForecastCore], ?_, ?_⟩
  · intro x hx
    rw [memGenerateForecast, memGenerateForecastCore] at hx
    obtain ⟨j, -, rfl⟩ := List.mem_map.1 hx
    exact le_max_left 0 _
  · intro i
    rw [memGenerateForecast, memGenerateForecastCore]
    rw [List.getD_eq_getElem _ _ (by simpa using i.isLt)]
    rw [List.getElem_map, List.getElem_range]

/-- **C9.** Forecast generation is deterministic: two runs of the forecast
formula on the same item id, the same weekly demand and the same demand
variability produce element-wise identical 8-entry arrays. -/
theorem generateForecast_deterministic (id1 id2 : ℤ) (wd1 wd2 v1 v2 : ℝ)
    (h1 : id1 = id2) (h2 : wd1 = wd2) (h3 : v1 = v2) :
    (memGenerateForecastCore id1 wd1 v1).length =
      (memGenerateForecastCore id2 wd2 v2).length ∧
    ∀ i : ℕ, (memGenerateForecastCore id1 wd1 v1).getD i 0 =
      (memGenerateForecastCore id2 wd2 v2).getD i 0 := by
  subst h1
  subst h2
  subst h3
  exact ⟨rfl, fun i => rfl⟩

theorem generateForecast_deterministic_witness :
    (1 : ℤ) = 1 ∧
    (memGenerateForecastCore 1 10 2).getD 0 0 = (memGenerateForecastCore 1 10 2).getD 0 0 :=
  ⟨rfl, (generateForecast_deterministic 1 1 10 10 2 2 rfl rfl rfl).2 0⟩

/-- The weekly-demand value prescribed by spec §4.1 (used as the refinement
reference for C5): the sum of the 12 weekly bucket totals of the trailing
12-week window, divided by exactly 12. -/
def specWeeklyDemand (now : ℤ) (demands : List DemandRecord) : ℚ :=
  (((List.range 12).map (memWeekTotal now demands)).sum : ℚ) / 12

/-- **C5 (counterexample).** A single demand record 17 days in the past:
`MemStorage.calculateWeeklyDemand` (and the spec's mean-over-12 formula)
yields `12 / 12 = 1`, but `PostgreSQLStorage.calculateWeeklyDemand` divides
by the number of distinct record-bearing weeks and yields `12 / 1 = 12`. -/
theorem pg_weeklyDemand_divisor_counterexample :
    pgCalculateWeeklyDemand [⟨1, 3, 12⟩] = 12 ∧
    specWeeklyDemand 20 [⟨1, 3, 12⟩] = 1 ∧
    memCalculateWeeklyDemand 20 [⟨1, 3, 12⟩] = 1 ∧
    (12 : ℚ) ≠ 1 := by
  have hval : pgWeeklyTotalValues [⟨1, 3, 12⟩] = [12] := by decide
  have hsum : ((List.range 12).map (memWeekTotal 20 [⟨1, 3, 12⟩])).sum = 12 := by decide
  refine ⟨?_, ?_, ?_, by norm_num⟩
  · rw [pgCalculateWeeklyDemand, if_neg (by decide), if_pos (by rw [hval]; norm_num), hval]
    norm_num
  · rw [specWeeklyDemand, hsum]
    norm_num
  · rw [memCalculateWeeklyDemand, memWeeklyTotals, hsum]
    have hlen : ((List.range 12).map (memWeekTotal 20 [⟨1, 3, 12⟩])).length = 12 := by decide
    rw [hlen]
    norm_num

/-- **C5 (amended).** `MemStorage.calculateWeeklyDemand` is the arithmetic
mean over exactly 12 weekly bucket totals of the trailing 12-week window,
with empty weeks contributing 0 and never excluded from the divisor;
`PostgreSQLStorage.calculateWeeklyDemand` instead divides the sum of the
grouped per-week totals of the whole history by the number of distinct
record-bearing weeks. -/
theorem mem_weeklyDemand_mean_over_12 :
    (∀ (now : ℤ) (demands : List DemandRecord),
      memCalculateWeeklyDemand now demands = specWeeklyDemand now demands) ∧
    (∀ demands : List DemandRecord, demands.isEmpty = false →
      pgCalculateWeeklyDemand demands =
        ((pgWeeklyTotalValues demands).sum : ℚ) / ((pgWeekKeys demands).length : ℚ)) := by
  constructor
  · intro now demands
    rw [memCalculateWeeklyDemand, specWeeklyDemand, memWeeklyTotals]
    simp
  · intro demands hne
    have hkeys : pgWeekKeys demands ≠ [] := by
      rcases demands with _ | ⟨d, rest⟩
      · simp at hne
      · intro hcontra
        have hmem : pgWeekKey d.date ∈ pgWeekKeys (d :: rest) := by
          rw [pgWeekKeys]
          exact List.mem_dedup.2 (List.mem_map.2 ⟨d, List.mem_cons_self d rest, rfl⟩)
        rw [hcontra] at hmem
        simp at hmem
    have hlen : 0 < (pgWeeklyTotalValues demands).length := by
      rw [pgWeeklyTotalValues, List.length_map]
      exact List.length_pos.2 hkeys
    rw [pgCalculateWeeklyDemand, if_neg (by rw [hne]; simp), if_pos hlen,
      pgWeeklyTotalValues, List.length_map]

theorem mem_weeklyDemand_mean_over_12_witness :
    ([⟨1, 3, 12⟩] : List DemandRecord).isEmpty = false ∧
    pgCalculateWeeklyDemand [⟨1, 3, 12⟩] =
      ((pgWeeklyTotalValues [⟨1, 3, 12⟩]).sum : ℚ) /
        ((pgWeekKeys [⟨1, 3, 12⟩]).length : ℚ) :=
  ⟨rfl, mem_weeklyDemand_mean_over_12.2 [⟨1, 3, 12⟩] rfl⟩

/-- **C6 (counterexample).** `MemStorage.calculateDemandVariability` has no
record-count guard: a history consisting of one single record of quantity 12
inside the 12-week window produces bucket totals with variance 11, hence a
variability of `sqrt 11 ≠ 0`, contradicting the claim that zero-or-one
records always give variability 0. -/
theorem mem_variability_single_record_counterexample :
    ([⟨1, 3, 12⟩] : List DemandRecord).length = 1 ∧
    memCalculateDemandVariability 20 [⟨1, 3, 12⟩] ≠ 0 := by
  refine ⟨by decide, ?_⟩
  have htot : memWeeklyTotals 20 [⟨1, 3, 12⟩] =
      [0, 0, 12, 0, 0, 0, 0, 0, 0, 0, 0, 0] := by decide
  have hvar : memVariance 20 [⟨1, 3, 12⟩] = 11 := by
    rw [memVariance, htot]
    norm_num [varianceOfTotals]
  rw [memCalculateDemandVariability, hvar]
  have hcast : ((11 : ℚ) : ℝ) = 11 := by norm_num
  rw [hcast]
  exact ne_of_gt (Real.sqrt_pos.mpr (by norm_num))

/-- **C6 (amended).** `PostgreSQLStorage.calculateDemandVariability` returns
0 whenever the history holds fewer than two records; `MemStorage`'s variant
has no such guard and returns 0 only for an empty history (a single positive
in-window record yields a positive value, per the counterexample). -/
theorem variability_small_history :
    (∀ demands : List DemandRecord, demands.length < 2 →
      pgCalculateDemandVariability demands = 0) ∧
    (∀ now : ℤ, memCalculateDemandVariability now [] = 0) := by
  constructor
  · intro d hd
    rw [pgCalculateDemandVariability, if_pos hd]
  · intro now
    have hzero : varianceOfTotals (List.replicate 12 0) = 0 := by
      rw [show List.replicate 12 (0 : ℕ) = [0, 0, 0, 0, 0, 0, 0, 0, 0, 0, 0, 0] from rfl]
      norm_num [varianceOfTotals]
    rw [memCalculateDemandVariability, memVariance, memWeeklyTotals_nil, hzero]
    norm_num

theorem variability_small_history_witness :
    ([⟨1, 3, 12⟩] : List DemandRecord).length < 2 ∧
    pgCalculateDemandVariability [⟨1, 3, 12⟩] = 0 :=
  ⟨by decide, variability_small_history.1 [⟨1, 3, 12⟩] (by decide)⟩

/-- Membership of a stockout message in `MemStorage.generateAIInsights`:
it occurs exactly when some week is classified `order`, and it always cites
`findIndex(order) + 1` over the **full** 12-entry array. -/
theorem stockout_mem_iff (item : InventoryItem) (S : List StatusWeek) (wd : ℚ) (n : ℕ) :
    MemInsight.stockout n ∈ memGenerateAIInsights item S wd ↔
      (0 < (S.filter fun s => decide (s.status = WeekCondition.order)).length ∧
        n = (S.findIdx fun s => decide (s.status = WeekCondition.order)) + 1) := by
  unfold memGenerateAIInsights
  by_cases h1 : 0 < (S.filter fun s => decide (s.status = WeekCondition.order)).length <;>
    by_cases h2 : 50 < wd <;>
      by_cases h3 : item.reorderPoint * 4 < item.currentStock <;>
        simp [h1, h2, h3, eq_comm]

/-- Membership of the critical message in
`PostgreSQLStorage.generateAIInsights`: it occurs exactly when some
non-historical week is classified `order`, and it cites the **count** of
such weeks. -/
theorem pg_critical_mem_iff (item : InventoryItem) (T : List StatusWeek) (wd : ℚ) (n : ℕ) :
    PgInsight.criticalRunOut n ∈ pgGenerateAIInsights item T wd ↔
      (0 < (T.filter fun s =>
          decide (s.status = WeekCondition.order) && !s.isHistorical).length ∧
        n = (T.filter fun s =>
          decide (s.status = WeekCondition.order) && !s.isHistorical).length) := by
  have hgen : ∀ (lowW orderW : ℕ) (c3 c4 : Prop) [Decidable c3] [Decidable c4],
      (PgInsight.criticalRunOut n ∈
        (let insights :=
          (if 0 < orderW then [PgInsight.criticalRunOut orderW]
           else if 2 < lowW then [PgInsight.lowWarning lowW] else []) ++
          (if c3 then [PgInsight.highDemand] else []) ++
          (if c4 then [PgInsight.slowMoving] else [])
         if insights.isEmpty then [PgInsight.healthy] else insights) ↔
        (0 < orderW ∧ n = orderW)) := by
    intro lowW orderW c3 c4 d3 d4
    by_cases h1 : 0 < orderW <;> by_cases h2 : 2 < lowW <;>
      by_cases hc3 : c3 <;> by_cases hc4 : c4 <;>
        simp [h1, h2, hc3, hc4, eq_comm]
  exact hgen
    (T.filter fun s => decide (s.status = WeekCondition.low) && !s.isHistorical).length
    (T.filter fun s => decide (s.status = WeekCondition.order) && !s.isHistorical).length
    ((item.currentStock : ℚ) / 2 < wd) (12 < (item.currentStock : ℚ) / max wd 1)

/-- Some entry of a list satisfies a predicate iff its filter is nonempty. -/
theorem filter_length_pos_iff (p : StatusWeek → Bool) (S : List StatusWeek) :
    0 < (S.filter p).length ↔ ∃ w ∈ S, p w = true := by
  rw [← List.countP_eq_length_filter]
  exact List.countP_pos_iff

/-- **C8 (counterexample).** Item with stock 100, reorder point 30, weekly
demand 0 and a constant forecast of 50: the first non-historical `order`
week is 1 week from now (index 1 of the future sub-list), yet the emitted
stockout message cites 6 weeks — `findIndex + 1` over the full 12-entry
array, counting the 4 historical weeks — so the cited number is neither
that distance nor that distance plus one. -/
theorem insights_countdown_counterexample :
    memGenerateAIInsights ⟨1, 100, 30, 0, 0, 0⟩
        (itemStockStatus ⟨1, 100, 30, 0, 0, 0⟩ 0 [] (List.replicate 8 50))
        (memCalculateWeeklyDemand 0 []) = [MemInsight.stockout 6] ∧
    ((itemStockStatus ⟨1, 100, 30, 0, 0, 0⟩ 0 [] (List.replicate 8 50)).drop 4).findIdx
        (fun s => decide (s.status = WeekCondition.order)) = 1 ∧
    (6 : ℕ) ≠ 1 ∧ (6 : ℕ) ≠ 1 + 1 := by
  rw [memCalculateWeeklyDemand_nil,
    itemStockStatus_nil ⟨1, 100, 30, 0, 0, 0⟩ 0 (List.replicate 8 50)]
  refine ⟨?_, by decide, by decide, by decide⟩
  rw [memGenerateAIInsights]
  rw [if_pos (by decide), if_neg (by norm_num), if_neg (by decide)]
  rw [show ((memStockStatusInt 100 30 0 (List.replicate 8 50)).findIdx
    fun s => decide (s.status = WeekCondition.order)) = 5 from by decide]
  decide

/-- **C8 (amended).** `MemStorage.generateAIInsights` emits the stockout
message iff some week of the classified sequence — historical included —
has status `order`; with non-negative inputs this is equivalent to some
non-historical week having status `order`.  The number cited, however, is
`1 +` the index of the first `order` week in the **full** 12-entry array
(counting the 4 historical entries), not the number of weeks from now.
`PostgreSQLStorage.generateAIInsights` emits its critical message iff some
non-historical week has status `order`, citing the **count** of such
weeks. -/
theorem insights_stockout_characterization (item : InventoryItem) (now : ℤ)
    (demands : List DemandRecord) (forecast : List ℤ)
    (hf : ∀ x ∈ forecast, 0 ≤ x) :
    ((∃ n, MemInsight.stockout n ∈ memGenerateAIInsights item
        (itemStockStatus item now demands forecast)
        (memCalculateWeeklyDemand now demands)) ↔
      (∃ w ∈ itemStockStatus item now demands forecast,
        w.status = WeekCondition.order)) ∧
    ((∃ w ∈ itemStockStatus item now demands forecast,
        w.status = WeekCondition.order) ↔
      (∃ w ∈ itemStockStatus item now demands forecast,
        w.isHistorical = false ∧ w.status = WeekCondition.order)) ∧
    (∀ n, MemInsight.stockout n ∈ memGenerateAIInsights item
        (itemStockStatus item now demands forecast)
        (memCalculateWeeklyDemand now demands) →
      n = ((itemStockStatus item now demands forecast).findIdx
        fun s => decide (s.status = WeekCondition.order)) + 1) ∧
    ((∃ n, PgInsight.criticalRunOut n ∈ pgGenerateAIInsights item
        (pgGenerateStockStatus item.currentStock item.reorderPoint forecast)
        (memCalculateWeeklyDemand now demands)) ↔
      (∃ w ∈ pgGenerateStockStatus item.currentStock item.reorderPoint forecast,
        w.isHistorical = false ∧ w.status = WeekCondition.order)) ∧
    (∀ n, PgInsight.criticalRunOut n ∈ pgGenerateAIInsights item
        (pgGenerateStockStatus item.currentStock item.reorderPoint forecast)
        (memCalculateWeeklyDemand now demands) →
      n = ((pgGenerateStockStatus item.currentStock item.reorderPoint forecast).filter
        fun s => decide (s.status = WeekCondition.order) && !s.isHistorical).length) := by
  have hfilterS := filter_length_pos_iff
    (fun s => decide (s.status = WeekCondition.order))
    (itemStockStatus item now demands forecast)
  have hexS : (∃ w ∈ itemStockStatus item now demands forecast,
      w.status = WeekCondition.order) ↔
      0 < ((itemStockStatus item now demands forecast).filter
        fun s => decide (s.status = WeekCondition.order)).length := by
    rw [hfilterS]
    simp
  refine ⟨?_, ?_, ?_, ?_, ?_⟩
  · constructor
    · rintro ⟨n, hn⟩
      exact hexS.2 ((stockout_mem_iff item _ _ n).1 hn).1
    · intro hex
      exact ⟨_, (stockout_mem_iff item _ _ _).2 ⟨hexS.1 hex, rfl⟩⟩
  · constructor
    · rintro ⟨w, hw, horder⟩
      obtain ⟨i, hi, rfl⟩ := List.mem_iff_getElem.1 hw
      have hi12 : i < 12 := by
        rw [itemStockStatus, length_memGenerateStockStatus] at hi
        exact hi
      have hwk : i < (memAllWeeks item.currentStock
          (memCalculateWeeklyDemand now demands) forecast).length := by
        rw [length_memAllWeeks]; exact hi12
      have hstat : statusAt (itemStockStatus item now demands forecast) i =
          WeekCondition.order := by
        rw [statusAt, List.getD_eq_getElem _ _ hi]
        exact horder
      rw [itemStockStatus, memGenerateStockStatus] at hstat
      rw [status_eq_order_iff item.reorderPoint _ i hwk] at hstat
      have hb11 : breachB item.reorderPoint
          (((memAllWeeks item.currentStock (memCalculateWeeklyDemand now demands)
            forecast).getD 11 dummyProjWeek).projectedStock) = true := by
        apply breachB_mono item.reorderPoint _ hstat
        rw [memAllWeeks_getD_ps _ _ _ i hi12, memAllWeeks_getD_ps _ _ _ 11 (by omega)]
        exact memPS_antitone _ _ _ (memCalculateWeeklyDemand_nonneg now demands) hf
          (by omega)
      have h11 : (11 : ℕ) < (itemStockStatus item now demands forecast).length := by
        rw [itemStockStatus, length_memGenerateStockStatus]; omega
      refine ⟨(itemStockStatus item now demands forecast).getD 11 dummyStatusWeek,
        ?_, ?_, ?_⟩
      · rw [List.getD_eq_getElem _ _ h11]
        exact List.getElem_mem h11
      · rw [itemStockStatus, memGenerateStockStatus,
          classify_getD_isHistorical item.reorderPoint _ 11 (by rw [length_memAllWeeks]; omega),
          memAllWeeks_getD_isHistorical _ _ _ 11 (by omega)]
        decide
      · rw [show ((itemStockStatus item now demands forecast).getD 11
            dummyStatusWeek).status = statusAt (itemStockStatus item now demands
            forecast) 11 from rfl]
        rw [itemStockStatus, memGenerateStockStatus,
          status_eq_order_iff item.reorderPoint _ 11 (by rw [length_memAllWeeks]; omega)]
        exact hb11
    · rintro ⟨w, hw, -, horder⟩
      exact ⟨w, hw, horder⟩
  · intro n hn
    exact ((stockout_mem_iff item _ _ n).1 hn).2
  · constructor
    · rintro ⟨n, hn⟩
      have hpos := ((pg_critical_mem_iff item _ _ n).1 hn).1
      rw [filter_length_pos_iff] at hpos
      obtain ⟨w, hw, hp⟩ := hpos
      rw [Bool.and_eq_true, decide_eq_true_eq, Bool.not_eq_true'] at hp
      exact ⟨w, hw, hp.2, hp.1⟩
    · rintro ⟨w, hw, hhist, horder⟩
      refine ⟨_, (pg_critical_mem_iff item _ _ _).2 ⟨?_, rfl⟩⟩
      rw [filter_length_pos_iff]
      refine ⟨w, hw, ?_⟩
      rw [Bool.and_eq_true, decide_eq_true_eq, Bool.not_eq_true']
      exact ⟨horder, hhist⟩
  · intro n hn
    exact ((pg_critical_mem_iff item _ _ n).1 hn).2

theorem insights_stockout_characterization_witness :
    (∀ x ∈ List.replicate 8 (50 : ℤ), 0 ≤ x) ∧
    ((∃ n, MemInsight.stockout n ∈ memGenerateAIInsights ⟨1, 100, 30, 0, 0, 0⟩
        (itemStockStatus ⟨1, 100, 30, 0, 0, 0⟩ 0 [] (List.replicate 8 50))
        (memCalculateWeeklyDemand 0 [])) ↔
      (∃ w ∈ itemStockStatus ⟨1, 100, 30, 0, 0, 0⟩ 0 [] (List.replicate 8 50),
        w.status = WeekCondition.order)) :=
  ⟨by decide,
    (insights_stockout_characterization ⟨1, 100, 30, 0, 0, 0⟩ 0 [] (List.replicate 8 50)
      (by decide)).1⟩

theorem projectedStock_antitone_claim_witness :
    (0 : ℤ) ≤ 45 ∧
    projAt (itemStockStatus ⟨3, 45, 60, 20, 0, 3⟩ 0 [] (List.replicate 8 12)) 11 ≤
      projAt (itemStockStatus ⟨3, 45, 60, 20, 0, 3⟩ 0 [] (List.replicate 8 12)) 0 :=
  ⟨by decide,
    (projectedStock_antitone_claim ⟨3, 45, 60, 20, 0, 3⟩ 0 [] (List.replicate 8 12)
      (by decide) (by decide)).2 0 11 (by omega) (by omega)⟩

end SmartStock
